import Mathlib

/-!
Verification of the rijckit lexer (src/lex.c, src/lex.h).

The development is a shallow embedding of the C source. Bytes are modelled
as natural numbers (the value of the char read from the buffer); a buffer
is a total function from offsets to bytes together with a fill size, which
matches the C code, where reads beyond the filled region are loads of
whatever the backing storage holds. Machine arithmetic on the size_t field
sz is modelled modulo 2 to the 64th power where the C code subtracts from it.
-/

set_option maxRecDepth 8000

namespace Rijckit

/-- Token categories, from the enum in lex.h
(Undefined, Number, Identifier, Whitespace, String, Character,
Punctuation, Directive). -/
inductive Cat where
  | Undefined
  | Number
  | Identifier
  | Whitespace
  | String
  | Character
  | Punctuation
  | Directive
  deriving DecidableEq

/-- Match states, from the enum in lex.h (Success, Fail, Undecided, End). -/
inductive State where
  | Success
  | Fail
  | Undecided
  | End
  deriving DecidableEq

/-- A token record: category, the recorded window pointer (as an offset into
the backing store, mirroring the buf field the C compound literals store),
and the byte length. The partial write on Undecided, (Tok)\x7btype\x7d in C,
zero-initializes the pointer and length. -/
structure Tok where
  type : Cat
  off : Nat
  len : Nat
  deriving DecidableEq

/-- The word size of the size_t arithmetic in lex, 2 to the 64th power. -/
def wsize : Nat := 2 ^ 64

/-- is_alnum from lex.c: A-Z, a-z, 0-9 and underscore (byte 95). -/
def is_alnum (c : Nat) : Bool :=
  ((65 ≤ c ∧ c ≤ 90) ∨ (97 ≤ c ∧ c ≤ 122) ∨ (48 ≤ c ∧ c ≤ 57) ∨ c = 95 : Prop)

/-- is_whitespace from lex.c: space 32, tab 9, newline 10, carriage return 13. -/
def is_whitespace (c : Nat) : Bool :=
  (c = 32 ∨ c = 9 ∨ c = 10 ∨ c = 13 : Prop)

/-- Structural engine of the nu loop: the fuel argument counts the
remaining iterations sz - len, so the loop guard len < sz is exactly the
guard fuel > 0 kept by the wrapper below. -/
def nuLoopGo (buf : Nat → Nat) : Nat → Nat → Option Nat
  | 0, _ => none
  | fuel + 1, len =>
    if buf len < 48 ∨ 57 < buf len then some len
    else nuLoopGo buf fuel (len + 1)

/-- The scanning loop of nu in lex.c: for (len = 1; len < sz; len++)
return len at the first byte outside 48..57 (the digits), else fall off. -/
def nuLoop (sz : Nat) (buf : Nat → Nat) (len : Nat) : Option Nat :=
  nuLoopGo buf (sz - len) len

/-- Lexeme nu from lex.c (the Number matcher): scan from offset 1 for the
first non-digit byte; Success with that length, else Undecided. -/
def nu (sz base : Nat) (buf : Nat → Nat) : State × Tok :=
  match nuLoop sz buf 1 with
  | some len => (.Success, ⟨.Number, base, len⟩)
  | none => (.Undecided, ⟨.Number, 0, 0⟩)

/-- Structural engine of the alpha loop, fuelled by sz - len. -/
def alphaLoopGo (buf : Nat → Nat) (check : Nat → Bool) : Nat → Nat → Option Nat
  | 0, _ => none
  | fuel + 1, len =>
    if check (buf len) = false then some len
    else alphaLoopGo buf check fuel (len + 1)

/-- The general loop of alpha in lex.c, from offset 4 on. -/
def alphaLoop (sz : Nat) (buf : Nat → Nat) (check : Nat → Bool) (len : Nat) :
    Option Nat :=
  alphaLoopGo buf check (sz - len) len

/-- Lexeme alpha from lex.c (Identifier and Whitespace): offsets 1, 2, 3 are
checked individually, then the loop runs from offset 4 to sz. -/
def alpha (sz base : Nat) (buf : Nat → Nat) (type : Cat) (check : Nat → Bool) :
    State × Tok :=
  if check (buf 1) = false then (.Success, ⟨type, base, 1⟩)
  else if check (buf 2) = false then (.Success, ⟨type, base, 2⟩)
  else if check (buf 3) = false then (.Success, ⟨type, base, 3⟩)
  else match alphaLoop sz buf check 4 with
    | some len => (.Success, ⟨type, base, len⟩)
    | none => (.Undecided, ⟨type, 0, 0⟩)

/-- Structural engine of the tau loop, fuelled by sz - len. -/
def tauLoopGo (buf : Nat → Nat) (termn : Nat) : Nat → Bool → Nat → Option Nat
  | 0, _, _ => none
  | fuel + 1, escape, len =>
    if escape then tauLoopGo buf termn fuel false (len + 1)
    else if buf len = termn then some len
    else tauLoopGo buf termn fuel (buf len == 92) (len + 1)

/-- The escape-tracking loop of tau in lex.c: for (len = 1; len < sz; len++),
with a single escape bit; byte 92 is the backslash. -/
def tauLoop (sz : Nat) (buf : Nat → Nat) (termn : Nat) (escape : Bool)
    (len : Nat) : Option Nat :=
  tauLoopGo buf termn (sz - len) escape len

/-- Lexeme tau from lex.c (String, Character, Directive and the comment path
of pi): unconditional reads b = buf 1, c = buf 2, d = buf 3 feed four fast
paths, then the loop restarts from offset 1. -/
def tau (sz base : Nat) (buf : Nat → Nat) (type : Cat) (plus termn : Nat) :
    State × Tok :=
  let b := buf 1
  let c := buf 2
  let d := buf 3
  if b = termn then (.Success, ⟨type, base, 1 + plus⟩)
  else if c = termn ∧ b ≠ 92 then (.Success, ⟨type, base, 2 + plus⟩)
  else if d = termn ∧ c ≠ 92 then (.Success, ⟨type, base, 3 + plus⟩)
  else if d = termn ∧ c = 92 ∧ b = 92 then (.Success, ⟨type, base, 3 + plus⟩)
  else match tauLoop sz buf termn false 1 with
    | some len => (.Success, ⟨type, base, len + plus⟩)
    | none => (.Undecided, ⟨type, 0, 0⟩)

/-- The switch body of pi from lex.c over the pre-read bytes a = buf 0,
b = buf 1, c = buf 2, with the fallthrough chains made explicit. The result
none models the declared-unreachable default branch. Byte codes: 45 is the
minus sign, 62 greater-than, 38 ampersand, 60 less-than, 124 vertical bar,
43 plus, 94 caret, 61 equals, 42 asterisk, 37 percent, 33 bang, 63 question
mark, 58 colon, 40 41 parentheses, 91 93 square brackets, 46 dot, 123 125
braces, 59 semicolon, 44 comma, 126 tilde, 47 slash, 10 newline. -/
def piGo (sz base : Nat) (buf : Nat → Nat) (a b c : Nat) :
    Option (State × Tok) :=
  if a = 45 ∧ b = 62 then some (.Success, ⟨.Punctuation, base, 2⟩)
  else if (a = 45 ∨ a = 38 ∨ a = 60 ∨ a = 62 ∨ a = 124 ∨ a = 43) ∧ b = a then
    some (.Success, ⟨.Punctuation, base,
      2 + (if (a = 60 ∨ a = 62) ∧ c = 61 then 1 else 0)⟩)
  else if a = 45 ∨ a = 38 ∨ a = 60 ∨ a = 62 ∨ a = 124 ∨ a = 43 ∨ a = 94 ∨
      a = 61 ∨ a = 42 ∨ a = 37 ∨ a = 33 then
    some (.Success, ⟨.Punctuation, base, 1 + (if b = 61 then 1 else 0)⟩)
  else if a = 63 then
    some (.Success, ⟨.Punctuation, base, 1 + (if b = 58 then 1 else 0)⟩)
  else if a = 40 ∨ a = 41 ∨ a = 91 ∨ a = 93 ∨ a = 46 ∨ a = 123 ∨ a = 125 ∨
      a = 58 ∨ a = 59 ∨ a = 44 ∨ a = 126 then
    some (.Success, ⟨.Punctuation, base,
      1 + 2 * (if a = 46 ∧ b = 46 ∧ c = 46 then 1 else 0)⟩)
  else if a = 47 then
    if b = 47 then some (tau (sz - 2) (base + 2) (fun i => buf (2 + i)) .Punctuation 2 10)
    else some (.Success, ⟨.Punctuation, base, 1 + (if b = 61 then 1 else 0)⟩)
  else none

/-- Lexeme pi from lex.c (the Punctuation matcher): reads a = buf 0,
b = buf 1, c = buf 2 and runs the switch. -/
def pi (sz base : Nat) (buf : Nat → Nat) : Option (State × Tok) :=
  piGo sz base buf (buf 0) (buf 1) (buf 2)

/-- classify from lex.c: the byte ranges of the eight categories, in the
order of the switch cases. -/
def classify (c : Nat) : Cat :=
  if c = 34 then .String
  else if c = 39 then .Character
  else if c = 35 then .Directive
  else if 48 ≤ c ∧ c ≤ 57 then .Number
  else if c = 32 ∨ c = 9 ∨ c = 10 ∨ c = 13 then .Whitespace
  else if (65 ≤ c ∧ c ≤ 90) ∨ (97 ≤ c ∧ c ≤ 122) ∨ c = 95 then .Identifier
  else if c = 33 ∨ c = 37 ∨ c = 38 ∨ (40 ≤ c ∧ c ≤ 47) ∨ (58 ≤ c ∧ c ≤ 63) ∨
      (91 ≤ c ∧ c ≤ 94) ∨ (123 ≤ c ∧ c ≤ 126) then .Punctuation
  else .Undefined

/-- dispatch from lex.c: classify the first byte and route to one matcher.
The token component is none exactly when the C code never writes the
caller record (the Undefined branch) and the overall result is none when
the undefined behaviour of the unreachable default in pi is met. -/
def dispatch (sz base : Nat) (buf : Nat → Nat) : Option (State × Option Tok) :=
  match classify (buf 0) with
  | .String =>
      let r := tau sz base buf .String 1 34
      some (r.1, some r.2)
  | .Character =>
      let r := tau sz base buf .Character 1 39
      some (r.1, some r.2)
  | .Directive =>
      let r := tau sz base buf .Directive 0 10
      some (r.1, some r.2)
  | .Number =>
      let r := nu sz base buf
      some (r.1, some r.2)
  | .Whitespace =>
      let r := alpha sz base buf .Whitespace is_whitespace
      some (r.1, some r.2)
  | .Identifier =>
      let r := alpha sz base buf .Identifier is_alnum
      some (r.1, some r.2)
  | .Punctuation =>
      match pi sz base buf with
      | some r => some (r.1, some r.2)
      | none => none
  | .Undefined => some (if buf 0 ≠ 0 then .Fail else .End, none)

/-- The lexing context from lex.h: the filled window size sz, the backing
capacity back_sz, the window pointer as an offset bufOff into the backing
store (the C buf pointer, with back_buf at offset 0), and the contents of
the backing store. -/
structure Ctx where
  sz : Nat
  back_sz : Nat
  bufOff : Nat
  store : Nat → Nat

/-- The active window of a context, indexing relative to the window start. -/
def winOf (ctx : Ctx) : Nat → Nat := fun i => ctx.store (ctx.bufOff + i)

/-- The memmove performed by lex on Undecided: the sz unconsumed bytes are
copied to the start of the backing buffer and the window pointer is reset. -/
def memShift (ctx : Ctx) : Ctx :=
  { ctx with
      bufOff := 0
      store := fun i => if i < ctx.sz then ctx.store (ctx.bufOff + i) else ctx.store i }

/-- The result of one lex call: the returned state, the token record as the
caller sees it afterwards (none when it was never written), and the updated
context. -/
structure LexOut where
  state : State
  tok : Option Tok
  ctx : Ctx

/-- Length of a possibly-unwritten token record, as read by lex after a
Success (the C code only reads it when dispatch wrote it). -/
def tokLen : Option Tok → Nat
  | some t => t.len
  | none => 0

/-- The state update of lex from lex.c: on Undecided the memmove to the
backing buffer start; on Success the pointer advance by the token length
and the size_t decrement of sz, modelled modulo the word size. -/
def lexStep (ctx : Ctx) (s : State) (t : Option Tok) : LexOut :=
  match s with
  | .Undecided => ⟨.Undecided, t, memShift ctx⟩
  | .Success =>
      ⟨.Success, t,
        { ctx with
            bufOff := ctx.bufOff + tokLen t
            sz := (ctx.sz + (wsize - tokLen t % wsize)) % wsize }⟩
  | .Fail => ⟨.Fail, t, ctx⟩
  | .End => ⟨.End, t, ctx⟩

/-- lex from lex.c: dispatch only when sz is at least 4, else keep the
initial Undecided state with the token record unwritten; then apply the
state update. The result is none exactly when dispatch ran into the
unreachable default of pi. -/
def lex (ctx : Ctx) : Option LexOut :=
  if 4 ≤ ctx.sz then
    match dispatch ctx.sz ctx.bufOff (winOf ctx) with
    | none => none
    | some (s, t) => some (lexStep ctx s t)
  else some (lexStep ctx .Undecided none)

/-- Why a driver run stopped: the token batch capacity was exhausted, lex
returned a non-Success state, or the undefined unreachable path was hit. -/
inductive RunStop where
  | batch
  | halt (s : State)
  | ub
  deriving DecidableEq

/-- The streaming driver loop, as in the harness protocol: call lex
repeatedly while it succeeds, recording for every token its category, the
window offset at emission and its length; stop on any other state. The
fuel is the caller-supplied batch capacity. -/
def run : Nat → Ctx → List (Cat × Nat × Nat) × RunStop × Ctx
  | 0, ctx => ([], .batch, ctx)
  | fuel + 1, ctx =>
    match lex ctx with
    | none => ([], .ub, ctx)
    | some out =>
      match out.state, out.tok with
      | .Success, some t =>
          let r := run fuel out.ctx
          ((t.type, ctx.bufOff, t.len) :: r.1, r.2)
      | s, _ => ([], .halt s, out.ctx)

/-- A context freshly loaded from a byte list: the list fills the backing
store from offset 0 and the window covers it. -/
def ctxOfList (l : List Nat) : Ctx :=
  ⟨l.length, l.length, 0, fun i => l.getD i 0⟩

/-- The refill step of the protocol, performed by the caller right after an
Undecided lex call (which already moved the tail to the backing buffer
start): append the new bytes after the sz unconsumed ones. -/
def refill (ctx : Ctx) (chunk : List Nat) : Ctx :=
  { ctx with
      sz := ctx.sz + chunk.length
      store := fun i =>
        if ctx.sz ≤ i ∧ i < ctx.sz + chunk.length then chunk.getD (i - ctx.sz) 0
        else ctx.store i }

/-- Total number of bytes consumed by a list of emitted tokens. -/
def consumedLen (ts : List (Cat × Nat × Nat)) : Nat :=
  (ts.map fun x => x.2.2).sum

/-- Feeding a whole input in one chunk: load it and run the driver. -/
def wholeRun (fuel : Nat) (input : List Nat) : List (Cat × Nat × Nat) :=
  (run fuel (ctxOfList input)).1

/-- Feeding the same input split in two chunks with the refill protocol:
run on the first chunk; if the driver halted on Undecided, append the
second chunk and run again, reporting the second batch of offsets relative
to the original stream. -/
def splitRun (fuel : Nat) (c1 c2 : List Nat) : List (Cat × Nat × Nat) :=
  let r1 := run fuel (ctxOfList c1)
  match r1.2.1 with
  | .halt .Undecided =>
      let c := consumedLen r1.1
      let r2 := run fuel (refill r1.2.2 c2)
      r1.1 ++ r2.1.map (fun x => (x.1, c + x.2.1, x.2.2))
  | _ => r1.1

/-- Structural engine of the read trace of the tau loop, fuelled by
sz - len; in the escape state the C loop body reads no buffer byte. -/
def tauLoopReadsGo (buf : Nat → Nat) (termn : Nat) : Nat → Bool → Nat → List Nat
  | 0, _, _ => []
  | fuel + 1, escape, len =>
    if escape then tauLoopReadsGo buf termn fuel false (len + 1)
    else if buf len = termn then [len]
    else len :: tauLoopReadsGo buf termn fuel (buf len == 92) (len + 1)

/-- The byte offsets (relative to the buf parameter of tau) that the loop of
tau loads, following its control flow. -/
def tauLoopReads (sz : Nat) (buf : Nat → Nat) (termn : Nat) (escape : Bool)
    (len : Nat) : List Nat :=
  tauLoopReadsGo buf termn (sz - len) escape len

/-- All byte offsets (relative to the buf parameter of tau) that tau loads:
the unconditional reads of offsets 1, 2, 3, then the loop reads when no
fast path returned. -/
def tauReads (sz : Nat) (buf : Nat → Nat) (termn : Nat) : List Nat :=
  [1, 2, 3] ++
    (if buf 1 = termn then []
     else if buf 2 = termn ∧ buf 1 ≠ 92 then []
     else if buf 3 = termn ∧ buf 2 ≠ 92 then []
     else if buf 3 = termn ∧ buf 2 = 92 ∧ buf 1 = 92 then []
     else tauLoopReads sz buf termn false 1)

/-- All byte offsets (relative to the window start) that pi loads: the
unconditional reads of offsets 0, 1, 2, and on the comment path the reads
of the delegated tau over the window shifted by two bytes. -/
def piReads (sz : Nat) (buf : Nat → Nat) : List Nat :=
  [0, 1, 2] ++
    (if buf 0 = 47 ∧ buf 1 = 47 then
      (tauReads (sz - 2) (fun i => buf (2 + i)) 10).map (fun k => 2 + k)
     else [])

/-- Modelled from the spec of the Escaped-Terminator Matcher: whether the
byte at a given offset is escaped, tracking a single escape bit from
offset 1 on; a backslash (byte 92) that is not itself escaped escapes the
following byte. The opener at offset 0 escapes nothing. -/
def escapedAt (buf : Nat → Nat) : Nat → Bool
  | 0 => false
  | 1 => false
  | k + 2 => !(escapedAt buf (k + 1)) && (buf (k + 1) == 92)

/-- Structural engine of the first-unescaped-terminator search, fuelled by
sz - k. -/
def firstTermGo (termn : Nat) (buf : Nat → Nat) : Nat → Nat → Option Nat
  | 0, _ => none
  | fuel + 1, k =>
    if buf k = termn ∧ escapedAt buf k = false then some k
    else firstTermGo termn buf fuel (k + 1)

/-- Modelled from the spec of the Escaped-Terminator Matcher: the offset of
the first unescaped terminator byte at offset k or beyond, none when no
unescaped terminator lies within the window. -/
def firstTermFrom (sz termn : Nat) (buf : Nat → Nat) (k : Nat) : Option Nat :=
  firstTermGo termn buf (sz - k) k

/-- Modelled from the spec of the Escaped-Terminator Matcher: Success at the
first unescaped terminator, with the terminator included in the length when
plus is 1 (strings, characters) and excluded when plus is 0 (directives);
Undecided when no unescaped terminator lies within the window. -/
def tauSpec (sz base : Nat) (buf : Nat → Nat) (ty : Cat) (plus termn : Nat) :
    State × Tok :=
  match firstTermFrom sz termn buf 1 with
  | some k => (.Success, ⟨ty, base, k + plus⟩)
  | none => (.Undecided, ⟨ty, 0, 0⟩)

/-- Modelled from the rule list of claim C5, in its stated precedence order:
rule 1 the arrow, rule 2 the doubled bytes from the set ampersand,
less-than, greater-than, bar, plus, rule 3 the equals-suffixed operators,
rule 4 the ternary punctuation, rule 5 the ellipsis, rule 6 the fixed
single-byte punctuation. -/
def piClaimLen (a b c : Nat) : Nat :=
  if a = 45 ∧ b = 62 then 2
  else if (a = 38 ∨ a = 60 ∨ a = 62 ∨ a = 124 ∨ a = 43) ∧ b = a then
    2 + (if (a = 60 ∨ a = 62) ∧ c = 61 then 1 else 0)
  else if a = 94 ∨ a = 61 ∨ a = 42 ∨ a = 37 ∨ a = 33 ∨ a = 38 ∨ a = 60 ∨
      a = 62 ∨ a = 124 ∨ a = 43 ∨ a = 45 then
    if b = 61 then 2 else 1
  else if a = 63 then
    if b = 58 then 2 else 1
  else if a = 46 then
    if b = 46 ∧ c = 46 then 3 else 1
  else 1

/-- The rule list of claim C5 amended only where the counterexample forces
it: the doubled-byte set of rule 2 also contains the minus sign (byte 45),
so the decrement operator lexes as one token of length 2, as the
fallthrough in the source arranges. -/
def piAmendLen (a b c : Nat) : Nat :=
  if a = 45 ∧ b = 62 then 2
  else if (a = 45 ∨ a = 38 ∨ a = 60 ∨ a = 62 ∨ a = 124 ∨ a = 43) ∧ b = a then
    2 + (if (a = 60 ∨ a = 62) ∧ c = 61 then 1 else 0)
  else if a = 94 ∨ a = 61 ∨ a = 42 ∨ a = 37 ∨ a = 33 ∨ a = 38 ∨ a = 60 ∨
      a = 62 ∨ a = 124 ∨ a = 43 ∨ a = 45 then
    if b = 61 then 2 else 1
  else if a = 63 then
    if b = 58 then 2 else 1
  else if a = 46 then
    if b = 46 ∧ c = 46 then 3 else 1
  else 1

/-- Tiling check for a token list: each token starts exactly where the
previous one ended, beginning at the given stream position. -/
def tileB (p : Nat) : List (Cat × Nat × Nat) → Bool
  | [] => true
  | (_, o, l) :: r => (o == p) && tileB (p + l) r

/-- A window function holding the bytes of a list, zero beyond it. -/
def bufOfList (l : List Nat) : Nat → Nat := fun i => l.getD i 0

/-- The 4-byte window slash, slash, a, b used to exhibit the out-of-window
reads of the comment path. -/
def winOob : Nat → Nat := bufOfList [47, 47, 97, 98]

/-- A window whose first byte is the backslash (92). -/
def winBsl : Nat → Nat := bufOfList [92, 59, 59, 59]

/-- The 8-byte window quote, a, b, backslash, quote, c, d, quote from the
escaped-terminator example of the spec. -/
def winStr8 : Nat → Nat := bufOfList [34, 97, 98, 92, 34, 99, 100, 34]

/-- The 10-byte window holding slash, slash, c, o, m, m, e, n, t, newline. -/
def winCmt : Nat → Nat := bufOfList [47, 47, 99, 111, 109, 109, 101, 110, 116, 10]

/-- The 7-byte window slash, slash, newline, a, b, c, d: its first
unescaped newline sits at offset 2, which the comment path never visits. -/
def winCNl : Nat → Nat := bufOfList [47, 47, 10, 97, 98, 99, 100]

/-- The 4-byte window minus, minus, a, a (the decrement operator). -/
def winMM : Nat → Nat := bufOfList [45, 45, 97, 97]

/-- The 4-byte window holding the digit 1 then a, 0, 0. -/
def winDig : Nat → Nat := bufOfList [49, 97, 48, 48]

/-- The 4-byte window holding digits 1, 2, 3 then the letter a. -/
def winDig3 : Nat → Nat := bufOfList [49, 50, 51, 97]

/-- The 4-byte window whose first byte is the dollar sign (36), a byte of
no lexical category. -/
def winDollar : Nat → Nat := bufOfList [36, 48, 48, 48]

/-- The 4-byte window whose first byte is the at sign (64), a byte of no
lexical category. -/
def winAt : Nat → Nat := bufOfList [64, 48, 48, 48]

/-- A 4-byte window of zero bytes, the end-of-input sentinel padding. -/
def winNul : Nat → Nat := bufOfList [0, 0, 0, 0]

/-- The input w, x, y, z, newline, slash, slash, a, b whose split feeding
diverges from its one-chunk feeding. -/
def inpSplit : List Nat := [119, 120, 121, 122, 10, 47, 47, 97, 98]

/-- A freshly loaded 4-byte context holding a, space, b, c. -/
def ctxA : Ctx := ctxOfList [97, 32, 98, 99]

/-- The result of the first lex call on ctxA: an Identifier token of length
one, the window advanced by one byte. -/
def outA : LexOut :=
  ⟨.Success, some ⟨.Identifier, 0, 1⟩, ⟨3, 4, 1, bufOfList [97, 32, 98, 99]⟩⟩

/-- A freshly loaded 3-byte context (below the 4-byte dispatch minimum). -/
def ctxB : Ctx := ctxOfList [47, 47, 97]

end Rijckit

namespace Rijckit

/-- C1: the claim is violated by the comment path of pi. On the 4-byte
window slash, slash, a, b (filled_size 4), pi delegates to tau on the
window shifted by two bytes with size 2, and the unconditional fast-path
loads of tau read the bytes at offsets 4 and 5 from the window start, both
at or beyond filled_size. -/
theorem c1_comment_path_reads_past_window :
    4 ∈ piReads 4 winOob ∧ 5 ∈ piReads 4 winOob := by decide

/-- C3: the claim is violated at the backslash byte 92. classify maps it to
Punctuation (the range 91 to 94 of its switch), but the switch of pi has no
case for it, so pi executes the declared-unreachable default branch
(modelled as the result none). -/
theorem c3_backslash_hits_unreachable_default :
    classify 92 = Cat.Punctuation ∧ pi 4 0 winBsl = none := by decide

/-- C6: the claim is violated. Feeding the nine input bytes w, x, y, z,
newline, slash, slash, a, b in one chunk yields two tokens and then
Undecided, but splitting after the eighth byte makes the retried comment
dispatch read the stale newline that the memmove left at offset 4 of the
backing buffer, so the split feeding emits a third, spurious Punctuation
token of length 4. -/
theorem c6_refill_divergence :
    wholeRun 8 inpSplit ≠
      splitRun 8 [119, 120, 121, 122, 10, 47, 47, 97] [98] := by decide

/-- C10: a lex call on a window smaller than 4 bytes does not dispatch,
leaves sz unchanged and the token record unwritten, moves the sz
unconsumed window bytes to the start of the backing buffer and reports
Undecided. -/
theorem c10_small_window (ctx : Ctx) (h : ctx.sz < 4) :
    lex ctx = some ⟨.Undecided, none, memShift ctx⟩
    ∧ (memShift ctx).sz = ctx.sz
    ∧ ∀ i, i < ctx.sz → (memShift ctx).store i = ctx.store (ctx.bufOff + i) := by
  refine ⟨?_, rfl, ?_⟩
  · unfold lex
    rw [if_neg (by omega)]
    rfl
  · intro i hi
    simp only [memShift, if_pos hi]

/-- Witness for C10 at the concrete 3-byte context holding slash, slash, a. -/
theorem c10_small_window_witness :
    lex ctxB = some ⟨.Undecided, none, memShift ctxB⟩
    ∧ (memShift ctxB).sz = 3 := by
  have h := c10_small_window ctxB (by decide)
  exact ⟨h.1, h.2.1⟩

/-- C9 counterexample: on the window starting with the dollar byte 36 the
dispatch returns Fail but never writes the caller token record (the token
component is none), so neither the byte value nor the attempted category is
surfaced in an emitted token. -/
theorem c9_fail_token_counterexample :
    dispatch 4 0 winDollar = some (.Fail, none) := by decide

/-- C9 amended: on a window of at least 4 bytes whose first byte belongs to
no lexical category, dispatch returns End when the byte is the sentinel 0
and Fail otherwise, and in both cases the caller token record stays
unwritten; the offending byte remains readable at the window start because
lex does not advance on Fail. -/
theorem c9_fail_end_amended (sz base : Nat) (buf : Nat → Nat) (_h4 : 4 ≤ sz)
    (hu : classify (buf 0) = .Undefined) :
    dispatch sz base buf = some (if buf 0 = 0 then .End else .Fail, none) := by
  unfold dispatch
  rw [hu]
  by_cases h0 : buf 0 = 0
  · simp [h0]
  · simp [h0]

/-- Witness for C9 at the at-sign window (Fail) and the sentinel window
(End). -/
theorem c9_fail_end_witness :
    dispatch 4 0 winAt = some (.Fail, none)
    ∧ dispatch 4 0 winNul = some (.End, none) := by
  have h1 := c9_fail_end_amended 4 0 winAt (by norm_num) (by decide)
  have h2 := c9_fail_end_amended 4 0 winNul (by norm_num) (by decide)
  exact ⟨h1.trans (by decide), h2.trans (by decide)⟩

/-- The escape bit one step further along the window. -/
theorem escapedAt_succ (buf : Nat → Nat) (k : Nat) (hk : 1 ≤ k) :
    escapedAt buf (k + 1) = (!(escapedAt buf k) && (buf k == 92)) := by
  obtain ⟨j, rfl⟩ : ∃ j, k = j + 1 := ⟨k - 1, by omega⟩
  rfl

/-- The loop of tau computes exactly the spec-side first-unescaped-terminator
search, when its escape bit agrees with the escape chain of the spec. -/
theorem tauLoopGo_eq_firstTermGo (buf : Nat → Nat) (termn : Nat) :
    ∀ fuel k, 1 ≤ k →
      tauLoopGo buf termn fuel (escapedAt buf k) k = firstTermGo termn buf fuel k := by
  intro fuel
  induction fuel with
  | zero => intro k _; rfl
  | succ n ih =>
    intro k hk
    by_cases he : escapedAt buf k
    · have hnext : escapedAt buf (k + 1) = false := by
        rw [escapedAt_succ buf k hk, he]
        rfl
      simp only [tauLoopGo, firstTermGo, he, if_true, Bool.true_eq_false,
        and_false, if_false]
      rw [← hnext]
      exact ih (k + 1) (by omega)
    · have he' : escapedAt buf k = false := by
        revert he
        cases escapedAt buf k <;> simp
      by_cases ht : buf k = termn
      · simp only [tauLoopGo, firstTermGo, he', ht, and_self, if_true,
          Bool.false_eq_true, if_false, eq_self_iff_true]
      · have hnext : escapedAt buf (k + 1) = (buf k == 92) := by
          rw [escapedAt_succ buf k hk, he']
          rfl
        simp only [tauLoopGo, firstTermGo, he', ht, Bool.false_eq_true,
          if_false, false_and, and_true, ite_false, eq_self_iff_true]
        rw [← hnext]
        exact ih (k + 1) (by omega)

/-- The full tau of lex.c, fast paths included, equals the spec-side
matcher whenever the window holds at least 4 bytes and the terminator is
not the backslash. -/
theorem tau_eq_tauSpec (sz base : Nat) (buf : Nat → Nat) (ty : Cat)
    (plus termn : Nat) (h4 : 4 ≤ sz) (hnb : termn ≠ 92) :
    tau sz base buf ty plus termn = tauSpec sz base buf ty plus termn := by
  have hloop : tauLoop sz buf termn false 1 = firstTermFrom sz termn buf 1 := by
    have h := tauLoopGo_eq_firstTermGo buf termn (sz - 1) 1 le_rfl
    rw [show escapedAt buf 1 = false from rfl] at h
    exact h
  obtain ⟨m, hm⟩ : ∃ m, sz - 1 = m + 3 := ⟨sz - 4, by omega⟩
  have e2 : escapedAt buf 2 = (buf 1 == 92) := rfl
  have e3 : escapedAt buf 3 = (!(buf 1 == 92) && (buf 2 == 92)) := by
    show (!(escapedAt buf 2) && (buf 2 == 92)) = _
    rw [e2]
  have unf : firstTermFrom sz termn buf 1 =
      (if buf 1 = termn then some 1
       else if buf 2 = termn ∧ (buf 1 == 92) = false then some 2
       else if buf 3 = termn ∧ (!(buf 1 == 92) && (buf 2 == 92)) = false then some 3
       else firstTermGo termn buf m 4) := by
    rw [firstTermFrom, hm]
    simp only [firstTermGo, show escapedAt buf 1 = false from rfl, e2, e3,
      eq_self_iff_true, and_true]
  unfold tau tauSpec
  by_cases h1 : buf 1 = termn
  · have hval : firstTermFrom sz termn buf 1 = some 1 := by
      rw [unf, if_pos h1]
    rw [hval]
    simp [h1]
  · by_cases h2 : buf 2 = termn ∧ buf 1 ≠ 92
    · have hval : firstTermFrom sz termn buf 1 = some 2 := by
        rw [unf, if_neg h1, if_pos ⟨h2.1, by simp [h2.2]⟩]
      rw [hval]
      simp [h1, h2]
    · by_cases h3 : buf 3 = termn ∧ buf 2 ≠ 92
      · have hval : firstTermFrom sz termn buf 1 = some 3 := by
          rw [unf, if_neg h1]
          rw [if_neg (by
            intro hx
            exact h2 ⟨hx.1, by simpa using hx.2⟩)]
          rw [if_pos ⟨h3.1, by simp [h3.2]⟩]
        rw [hval]
        simp [h1, h2, h3]
      · by_cases h4f : buf 3 = termn ∧ buf 2 = 92 ∧ buf 1 = 92
        · have hval : firstTermFrom sz termn buf 1 = some 3 := by
            rw [unf, if_neg h1]
            rw [if_neg (by
              intro hx
              rw [h4f.2.2] at hx
              simp at hx)]
            rw [if_pos ⟨h4f.1, by simp [h4f.2.2]⟩]
          rw [hval]
          simp [h1, h2, h3, h4f, Ne.symm hnb]
        · simp only [if_neg h1, if_neg h2, if_neg h3, if_neg h4f]
          rw [hloop]

/-- C2: for a window of at least 4 bytes opened by a double quote, a single
quote or a hash, dispatch behaves exactly as the spec-side escaped
terminator matcher: Success at the first unescaped terminator with the
terminator byte counted for strings and characters (plus 1) and not for
directives (plus 0), Undecided when no unescaped terminator lies in the
window; the 1-to-3 byte fast paths of tau introduce no deviation. -/
theorem c2_escaped_terminator_matcher (sz base : Nat) (buf : Nat → Nat)
    (h4 : 4 ≤ sz) :
    (buf 0 = 34 → dispatch sz base buf =
      some ((tauSpec sz base buf .String 1 34).1,
        some (tauSpec sz base buf .String 1 34).2))
    ∧ (buf 0 = 39 → dispatch sz base buf =
      some ((tauSpec sz base buf .Character 1 39).1,
        some (tauSpec sz base buf .Character 1 39).2))
    ∧ (buf 0 = 35 → dispatch sz base buf =
      some ((tauSpec sz base buf .Directive 0 10).1,
        some (tauSpec sz base buf .Directive 0 10).2)) := by
  refine ⟨fun h0 => ?_, fun h0 => ?_, fun h0 => ?_⟩
  · unfold dispatch
    rw [h0, show classify 34 = Cat.String from by decide]
    rw [tau_eq_tauSpec sz base buf .String 1 34 h4 (by decide)]
  · unfold dispatch
    rw [h0, show classify 39 = Cat.Character from by decide]
    rw [tau_eq_tauSpec sz base buf .Character 1 39 h4 (by decide)]
  · unfold dispatch
    rw [h0, show classify 35 = Cat.Directive from by decide]
    rw [tau_eq_tauSpec sz base buf .Directive 0 10 h4 (by decide)]

/-- Witness for C2 at the spec example: the window quote, a, b, backslash,
quote, c, d, quote is one String token of length 8, the escaped quote at
offset 4 being skipped. -/
theorem c2_escaped_terminator_matcher_witness :
    dispatch 8 0 winStr8 = some (.Success, some ⟨.String, 0, 8⟩) := by
  have h := (c2_escaped_terminator_matcher 8 0 winStr8 (by norm_num)).1 (by decide)
  rw [h]
  decide

/-- C4 counterexample: on the 7-byte window slash, slash, newline, a, b, c,
d, the first unescaped newline of the window sits at offset 2, so the
claim demands Success with length 2; the code instead returns Undecided,
because the delegated scan never visits offset 2. -/
theorem c4_newline_after_opener_counterexample :
    pi 7 0 winCNl = some (.Undecided, ⟨.Punctuation, 0, 0⟩)
    ∧ pi 7 0 winCNl ≠ some (.Success, ⟨.Punctuation, 0, 2⟩) := by decide

/-- C4 amended: on a window of at least 6 bytes starting with two slashes,
pi delegates to the escaped-terminator matcher over the window shifted by
two bytes: Success whose length is the offset of the first unescaped
newline at offset 3 or beyond (the newline excluded from the length, the
bytes at offsets 0 to 2 never tested), Undecided when no such newline lies
in the window; for windows of 4 or 5 bytes the fast paths read past the
window, which claim C1 records. -/
theorem c4_comment_scan_amended (sz base : Nat) (buf : Nat → Nat) (h6 : 6 ≤ sz)
    (h0 : buf 0 = 47) (h1 : buf 1 = 47) :
    pi sz base buf =
      some (tauSpec (sz - 2) (base + 2) (fun i => buf (2 + i)) .Punctuation 2 10) := by
  unfold pi piGo
  rw [h0, h1]
  norm_num
  rw [tau_eq_tauSpec (sz - 2) (base + 2) (fun i => buf (2 + i)) .Punctuation 2 10
    (by omega) (by decide)]

/-- Witness for C4 at the spec example: the 10-byte window slash, slash,
c, o, m, m, e, n, t, newline is one Punctuation token of length 9, the
newline excluded. -/
theorem c4_comment_scan_witness :
    pi 10 0 winCmt = some (.Success, ⟨.Punctuation, 2, 9⟩) := by
  have h := c4_comment_scan_amended 10 0 winCmt (by norm_num) (by decide) (by decide)
  rw [h]
  decide

/-- The punctuation alphabet of classify, as an explicit disjunction. -/
theorem classify_punct_cases (a : Nat) (h : classify a = .Punctuation) :
    a = 33 ∨ a = 37 ∨ a = 38 ∨ (40 ≤ a ∧ a ≤ 47) ∨ (58 ≤ a ∧ a ≤ 63) ∨
      (91 ≤ a ∧ a ≤ 94) ∨ (123 ≤ a ∧ a ≤ 126) := by
  unfold classify at h
  split_ifs at h with h1 h2 h3 h4 h5 h6 h7 <;>
    first
      | exact absurd h (by decide)
      | exact h7

/-- The switch of pi agrees with the amended rule list on every punctuation
byte other than the slash and the backslash. -/
theorem piGo_amend (sz base : Nat) (buf : Nat → Nat) (a b c : Nat)
    (hp : classify a = .Punctuation) (h47 : a ≠ 47) (h92 : a ≠ 92) :
    piGo sz base buf a b c =
      some (.Success, ⟨.Punctuation, base, piAmendLen a b c⟩) := by
  have hmem := classify_punct_cases a hp
  have hle : a ≤ 126 := by omega
  interval_cases a <;>
    first
      | exact absurd hp (by decide)
      | exact absurd rfl h47
      | exact absurd rfl h92
      | (simp only [piGo, piAmendLen]; norm_num; done)
      | (simp only [piGo, piAmendLen]; norm_num; split_ifs <;> simp_all)

/-- C5 counterexample: the 4-byte window minus, minus, a, a. The matcher
returns one Punctuation token of length 2 (the decrement operator, via the
case fallthrough), while the rule list of the claim assigns it length 1,
since its rule 2 set omits the minus sign and rule 3 only fires on a
following equals sign. -/
theorem c5_decrement_counterexample :
    pi 4 0 winMM = some (.Success, ⟨.Punctuation, 0, 2⟩)
    ∧ piClaimLen 45 45 97 = 1 := by decide

/-- C5 amended: on any window whose first byte is punctuation other than
the slash (and other than the backslash byte 92, which claim C3 records as
hitting the unreachable default), pi returns Success with the length of
the amended rule list, whose rule 2 doubled-byte set also contains the
minus sign. -/
theorem c5_punctuation_rules_amended (sz base : Nat) (buf : Nat → Nat)
    (hp : classify (buf 0) = .Punctuation) (h47 : buf 0 ≠ 47)
    (h92 : buf 0 ≠ 92) :
    pi sz base buf =
      some (.Success, ⟨.Punctuation, base, piAmendLen (buf 0) (buf 1) (buf 2)⟩) := by
  unfold pi
  exact piGo_amend sz base buf (buf 0) (buf 1) (buf 2) hp h47 h92

/-- Witness for C5 at the decrement window: the amended rule list gives
length 2 and pi agrees. -/
theorem c5_punctuation_rules_witness :
    pi 4 0 winMM = some (.Success, ⟨.Punctuation, 0, piAmendLen 45 45 97⟩)
    ∧ piAmendLen 45 45 97 = 2 := by
  have h := c5_punctuation_rules_amended 4 0 winMM (by decide) (by decide) (by decide)
  exact ⟨h, by decide⟩

/-- A digit byte is classified as Number. -/
theorem classify_digit (a : Nat) (h1 : 48 ≤ a) (h2 : a ≤ 57) :
    classify a = .Number := by
  unfold classify
  split_ifs <;> first | rfl | omega

/-- The nu loop finds no stopping point exactly when every byte it can
visit is a digit. -/
theorem nuLoopGo_none_iff (buf : Nat → Nat) :
    ∀ fuel start, nuLoopGo buf fuel start = none ↔
      ∀ i, start ≤ i → i < start + fuel → ¬(buf i < 48 ∨ 57 < buf i) := by
  intro fuel
  induction fuel with
  | zero =>
    intro start
    constructor
    · intro _ i h1 h2
      omega
    · intro _
      rfl
  | succ n ih =>
    intro start
    by_cases hnd : buf start < 48 ∨ 57 < buf start
    · constructor
      · intro h
        rw [show nuLoopGo buf (n + 1) start = some start from by
          simp [nuLoopGo, hnd]] at h
        cases h
      · intro h
        exact absurd hnd (h start le_rfl (by omega))
    · rw [show nuLoopGo buf (n + 1) start = nuLoopGo buf n (start + 1) from by
        simp [nuLoopGo, hnd]]
      rw [ih (start + 1)]
      constructor
      · intro h i h1 h2
        rcases Nat.eq_or_lt_of_le h1 with rfl | hlt
        · exact hnd
        · exact h i (by omega) (by omega)
      · intro h i h1 h2
        exact h i (by omega) (by omega)

/-- The nu loop stops at k exactly when k is in range, every visited byte
before k is a digit and the byte at k is not. -/
theorem nuLoopGo_some_iff (buf : Nat → Nat) :
    ∀ fuel start k, nuLoopGo buf fuel start = some k ↔
      (start ≤ k ∧ k < start + fuel ∧
        (∀ i, start ≤ i → i < k → ¬(buf i < 48 ∨ 57 < buf i)) ∧
        (buf k < 48 ∨ 57 < buf k)) := by
  intro fuel
  induction fuel with
  | zero =>
    intro start k
    constructor
    · intro h
      exact absurd h (by simp [nuLoopGo])
    · rintro ⟨ha, hb, -, -⟩
      exact absurd ha (by omega)
  | succ n ih =>
    intro start k
    by_cases hnd : buf start < 48 ∨ 57 < buf start
    · rw [show nuLoopGo buf (n + 1) start = some start from by
        simp [nuLoopGo, hnd]]
      constructor
      · intro h
        obtain rfl : start = k := by
          injection h
        exact ⟨le_rfl, by omega, fun i h1 h2 => absurd h1 (by omega), hnd⟩
      · rintro ⟨h1, h2, h3, h4⟩
        rcases Nat.eq_or_lt_of_le h1 with rfl | hlt
        · rfl
        · exact absurd hnd (h3 start le_rfl hlt)
    · rw [show nuLoopGo buf (n + 1) start = nuLoopGo buf n (start + 1) from by
        simp [nuLoopGo, hnd]]
      rw [ih (start + 1) k]
      constructor
      · rintro ⟨h1, h2, h3, h4⟩
        refine ⟨by omega, by omega, ?_, h4⟩
        intro i ha hb
        rcases Nat.eq_or_lt_of_le ha with rfl | hlt
        · exact hnd
        · exact h3 i (by omega) hb
      · rintro ⟨h1, h2, h3, h4⟩
        have hk : start ≠ k := by
          rintro rfl
          exact hnd h4
        exact ⟨by omega, by omega, fun i ha hb => h3 i (by omega) hb, h4⟩

/-- C8 counterexample: the 4-byte window holding the digit 1 then a, 0, 0.
The Number matcher is not a stub: it returns Success with length 1 at the
first non-digit byte. -/
theorem c8_digit_run_counterexample :
    dispatch 4 0 winDig = some (.Success, some ⟨.Number, 0, 1⟩) := by decide

/-- C8 amended: for a window of at least 4 bytes whose first byte is a
decimal digit, the dispatch through nu returns Success with length k
exactly when the bytes at offsets 1 to k - 1 are digits and the byte at
offset k (inside the window) is not, returns Undecided exactly when every
window byte from offset 1 on is a digit, and never returns Fail. -/
theorem c8_number_matcher_amended (sz base : Nat) (buf : Nat → Nat)
    (h4 : 4 ≤ sz) (hd : 48 ≤ buf 0 ∧ buf 0 ≤ 57) :
    (∀ k, dispatch sz base buf = some (.Success, some ⟨.Number, base, k⟩) ↔
      (1 ≤ k ∧ k < sz ∧ (∀ i, 1 ≤ i → i < k → 48 ≤ buf i ∧ buf i ≤ 57)
        ∧ (buf k < 48 ∨ 57 < buf k)))
    ∧ (dispatch sz base buf = some (.Undecided, some ⟨.Number, 0, 0⟩) ↔
      ∀ i, 1 ≤ i → i < sz → 48 ≤ buf i ∧ buf i ≤ 57)
    ∧ ∀ t, dispatch sz base buf ≠ some (.Fail, t) := by
  have hcl : classify (buf 0) = Cat.Number := classify_digit _ hd.1 hd.2
  have hrange : ∀ x : Nat, ¬(x < 48 ∨ 57 < x) ↔ (48 ≤ x ∧ x ≤ 57) := by
    intro x
    omega
  have hsum : 1 + (sz - 1) = sz := by omega
  have hdis : dispatch sz base buf =
      some ((nu sz base buf).1, some (nu sz base buf).2) := by
    unfold dispatch
    rw [hcl]
  rw [hdis]
  unfold nu nuLoop
  rcases hnl : nuLoopGo buf (sz - 1) 1 with _ | len
  · rw [nuLoopGo_none_iff buf (sz - 1) 1, hsum] at hnl
    refine ⟨fun k => ?_, ?_, fun t h => by cases h⟩
    · constructor
      · intro h
        cases h
      · rintro ⟨h1, h2, -, h4d⟩
        exact absurd h4d (by simpa [hrange] using hnl k h1 h2)
    · constructor
      · intro _ i h1 h2
        exact (hrange _).mp (hnl i h1 h2)
      · intro _
        rfl
  · rw [nuLoopGo_some_iff buf (sz - 1) 1 len, hsum] at hnl
    obtain ⟨hl1, hl2, hl3, hl4⟩ := hnl
    refine ⟨fun k => ?_, ?_, fun t h => by cases h⟩
    · constructor
      · intro h
        obtain rfl : len = k := by
          have := congrArg (fun o => o.map (fun p => tokLen p.2)) h
          simpa [tokLen] using this
        exact ⟨hl1, hl2, fun i h1 h2 => (hrange _).mp (hl3 i h1 h2), hl4⟩
      · rintro ⟨h1, h2, h3, h4d⟩
        have : k = len := by
          by_contra hne
          rcases Nat.lt_or_ge k len with hlt | hge
          · exact absurd h4d (by simpa [hrange] using hl3 k h1 hlt)
          · have hlt : len < k := by omega
            exact absurd hl4 (by simpa [hrange] using h3 len hl1 hlt)
        rw [this]
    · constructor
      · intro h
        cases h
      · intro h
        exact absurd hl4 (by simpa [hrange] using h len hl1 hl2)

/-- Witness for C8 at the window of digits 1, 2, 3 then the letter a:
Success with length 3. -/
theorem c8_number_matcher_witness :
    dispatch 4 0 winDig3 = some (.Success, some ⟨.Number, 0, 3⟩) := by
  have h := (c8_number_matcher_amended 4 0 winDig3 (by norm_num) (by decide)).1 3
  refine h.mpr ⟨by norm_num, by norm_num, ?_, by decide⟩
  intro i h1 h2
  interval_cases i <;> decide

/-- Frame of a successful lex call: the window pointer advances by the
token length, sz is decremented in size_t arithmetic, and the backing
store and capacity are untouched. -/
theorem lex_success_frame (ctx : Ctx) (out : LexOut) (t : Tok)
    (h : lex ctx = some out) (hs : out.state = .Success) (ht : out.tok = some t) :
    out.ctx.bufOff = ctx.bufOff + t.len
    ∧ out.ctx.sz = (ctx.sz + (wsize - t.len % wsize)) % wsize
    ∧ out.ctx.store = ctx.store ∧ out.ctx.back_sz = ctx.back_sz := by
  unfold lex at h
  by_cases h4 : 4 ≤ ctx.sz
  · rw [if_pos h4] at h
    rcases hd : dispatch ctx.sz ctx.bufOff (winOf ctx) with _ | ⟨s, tk⟩ <;>
      rw [hd] at h
    · cases h
    · have hout : out = lexStep ctx s tk := by
        injection h with h'
        exact h'.symm
      subst hout
      cases s
      · have htk : tk = some t := ht
        subst htk
        simp [lexStep, tokLen]
      · exact absurd hs (by simp [lexStep])
      · exact absurd hs (by simp [lexStep])
      · exact absurd hs (by simp [lexStep])
  · rw [if_neg h4] at h
    have hout : out = lexStep ctx .Undecided none := by
      injection h with h'
      exact h'.symm
    subst hout
    exact absurd hs (by simp [lexStep])

/-- Frame of an undecided lex call: sz and the backing capacity are kept,
the window pointer is reset to the backing buffer start, and the sz
unconsumed bytes are preserved there. -/
theorem lex_undecided_frame (ctx : Ctx) (out : LexOut)
    (h : lex ctx = some out) (hs : out.state = .Undecided) :
    out.ctx.sz = ctx.sz ∧ out.ctx.back_sz = ctx.back_sz ∧ out.ctx.bufOff = 0
    ∧ ∀ i, i < ctx.sz → out.ctx.store i = ctx.store (ctx.bufOff + i) := by
  have hmem : out.ctx = memShift ctx →
      out.ctx.sz = ctx.sz ∧ out.ctx.back_sz = ctx.back_sz ∧ out.ctx.bufOff = 0
      ∧ ∀ i, i < ctx.sz → out.ctx.store i = ctx.store (ctx.bufOff + i) := by
    intro he
    rw [he]
    refine ⟨rfl, rfl, rfl, fun i hi => ?_⟩
    simp only [memShift, if_pos hi]
  unfold lex at h
  by_cases h4 : 4 ≤ ctx.sz
  · rw [if_pos h4] at h
    rcases hd : dispatch ctx.sz ctx.bufOff (winOf ctx) with _ | ⟨s, tk⟩ <;>
      rw [hd] at h
    · cases h
    · have hout : out = lexStep ctx s tk := by
        injection h with h'
        exact h'.symm
      subst hout
      cases s
      · exact absurd hs (by simp [lexStep])
      · exact absurd hs (by simp [lexStep])
      · exact hmem rfl
      · exact absurd hs (by simp [lexStep])
  · rw [if_neg h4] at h
    have hout : out = lexStep ctx .Undecided none := by
      injection h with h'
      exact h'.symm
    subst hout
    exact hmem rfl

/-- The driver tokens tile: each recorded window offset is exactly the
previous offset plus the previous length, starting at the initial window
offset, because lex advances the pointer by precisely the emitted length. -/
theorem run_tile (fuel : Nat) : ∀ ctx : Ctx, tileB ctx.bufOff (run fuel ctx).1 = true := by
  induction fuel with
  | zero =>
    intro ctx
    rfl
  | succ n ih =>
    intro ctx
    rcases h : lex ctx with _ | out
    · simp [run, h, tileB]
    · obtain ⟨st, tk, ctx1⟩ := out
      cases st
      · rcases tk with _ | t
        · simp [run, h, tileB]
        · have hfr := lex_success_frame ctx ⟨.Success, some t, ctx1⟩ t h rfl rfl
          simp only [run, h, tileB]
          have := ih ctx1
          rw [show ctx1.bufOff = ctx.bufOff + t.len from hfr.1] at this
          simp [this]
      · simp [run, h, tileB]
      · simp [run, h, tileB]
      · simp [run, h, tileB]

/-- C7: on Success, lex advances the window pointer by exactly the emitted
token length and shrinks sz by exactly that length (in size_t arithmetic,
so exactly whenever the length fits in the window), leaving the backing
store and capacity unchanged; on Undecided the unconsumed bytes are kept,
copied to the backing buffer start with sz unchanged; consequently the
recorded (offset, length) windows of consecutive Success tokens of a
driver run tile the consumed prefix with no gaps and no overlaps. -/
theorem c7_success_frame_and_tiling (ctx : Ctx) (out : LexOut) (t : Tok)
    (hW : ctx.sz < wsize) (h : lex ctx = some out) :
    (out.state = .Success → out.tok = some t →
      out.ctx.bufOff = ctx.bufOff + t.len
      ∧ (t.len ≤ ctx.sz → out.ctx.sz + t.len = ctx.sz)
      ∧ out.ctx.store = ctx.store ∧ out.ctx.back_sz = ctx.back_sz)
    ∧ (out.state = .Undecided →
      out.ctx.sz = ctx.sz ∧ out.ctx.back_sz = ctx.back_sz ∧ out.ctx.bufOff = 0
      ∧ ∀ i, i < ctx.sz → out.ctx.store i = ctx.store (ctx.bufOff + i))
    ∧ ∀ fuel, tileB ctx.bufOff (run fuel ctx).1 = true := by
  refine ⟨fun hs ht => ?_, fun hs => lex_undecided_frame ctx out h hs,
    fun fuel => run_tile fuel ctx⟩
  obtain ⟨hb, hsz, hst, hbk⟩ := lex_success_frame ctx out t h hs ht
  refine ⟨hb, fun hle => ?_, hst, hbk⟩
  rw [hsz]
  have h1 : t.len % wsize = t.len := Nat.mod_eq_of_lt (lt_of_le_of_lt hle hW)
  rw [h1]
  have h2 : ctx.sz + (wsize - t.len) = wsize + (ctx.sz - t.len) := by omega
  rw [h2, Nat.add_mod_left, Nat.mod_eq_of_lt (by omega)]
  omega

/-- Witness for C7 at the 4-byte context a, space, b, c: the first call
emits an Identifier of length 1, advancing the window offset from 0 to 1
and shrinking sz from 4 to 3, and the driver tokens tile from offset 0. -/
theorem c7_success_frame_and_tiling_witness :
    outA.ctx.bufOff = ctxA.bufOff + 1 ∧ outA.ctx.sz + 1 = ctxA.sz
    ∧ tileB ctxA.bufOff (run 4 ctxA).1 = true := by
  have h := c7_success_frame_and_tiling ctxA outA ⟨.Identifier, 0, 1⟩
    (by decide) rfl
  have hs := h.1 rfl rfl
  exact ⟨hs.1, hs.2.1 (by decide), h.2.2 4⟩

end Rijckit
